import Mathlib

/-!
Verification of the news-dashboard ingestion pipeline.

Shallow embedding of the core pipeline of `daily_report.py`, `utility.py`
and `weekly_report.py`:

* the deduplication ledger and its purge-on-load step,
* the feed fetcher with full-text fallback and dedup skipping,
* the retry/backoff wrappers around external AI calls,
* the enrichment stage (summarize, classify, collect, ledger update),
* the archive store (daily JSON files, range load, age-based eviction),
* the weekly sentiment trend statistics.

Timestamps are modelled as integers (seconds since the epoch); ISO-8601
strings compare the same way as the instants they denote.  Calendar dates
are modelled as integer day keys.  JSON (de)serialisation of records is
modelled as the identity on the record values.
-/

set_option autoImplicit false

namespace NewsDashboard

/-- Retention window of the deduplication ledger, in days
(`RETENTION_DAYS = 14` in `run_news_report`). -/
def RETENTION_DAYS : Int := 14

/-- Seconds in a day, used to turn day counts into second offsets. -/
def SECONDS_PER_DAY : Int := 86400

/-- The ledger purge performed at the start of `run_news_report`
(daily_report.py lines 300-301):
`urls_to_keep = {url: ts for url, ts in history.items()
                 if datetime.fromisoformat(ts) > cutoff_date}`
with `cutoff_date = now - timedelta(days=RETENTION_DAYS)`.
The ledger is a list of (url, timestamp) pairs in insertion order. -/
def purge (history : List (String × Int)) (now : Int) : List (String × Int) :=
  history.filter (fun p => decide (now - RETENTION_DAYS * SECONDS_PER_DAY < p.2))

/-- The purge rule as the specification words it: remove precisely the
entries whose timestamp is strictly less than `now - RETENTION_DAYS` days,
keeping every other entry (including one exactly at the boundary). -/
def purgeSpec (history : List (String × Int)) (now : Int) : List (String × Int) :=
  history.filter (fun p => decide (¬ p.2 < now - RETENTION_DAYS * SECONDS_PER_DAY))

/-- C1 counterexample: on a ledger with a single entry whose timestamp is
exactly `now - 14 days` (timestamp `0`, `now = 14 * 86400`), the code's
purge removes the entry, while the claimed rule (remove only entries
strictly older than the boundary) would keep it. -/
theorem purge_boundary_counterexample :
    purge [("u", 0)] (14 * 86400) = [] ∧
    purgeSpec [("u", 0)] (14 * 86400) = [("u", 0)] := by
  constructor <;> rfl

/-- C1 (amended): purge is pure and boundary-exact with a non-strict
boundary: an entry survives the purge iff it was in the input ledger and
its timestamp is strictly greater than `now - 14 days`; equivalently, the
purge removes exactly the entries with timestamp `≤ now - 14 days`, so the
entry exactly at the boundary is removed.  The result is a function of the
input mapping and `now` alone, hence deterministic. -/
theorem purge_exact_membership (history : List (String × Int)) (now : Int)
    (p : String × Int) :
    p ∈ purge history now ↔
      p ∈ history ∧ now - RETENTION_DAYS * SECONDS_PER_DAY < p.2 := by
  simp [purge, List.mem_filter]

/-! ### Retry/backoff wrappers around the external AI calls -/

/-- Result of classifying an article: the `sentiment` string and the
`entities` mapping (category to list of names), as extracted from the
service's JSON answer by `analyze_content`. -/
structure Analysis where
  sentiment : String
  entities : List (String × List String)
  deriving DecidableEq

/-- The failure sentinel of `analyze_content` (utility.py line 110):
`{"sentiment": "Unknown", "entities": {}}`. -/
def classificationSentinel : Analysis := ⟨"Unknown", []⟩

/-- The retry loop shared by all external AI wrappers
(`generate_axios_summary`, `analyze_content`, `get_company_selections`,
`generate_investment_memo`):

    attempt = 0
    while attempt < max_retries:
        try: return onSuccess(call())
        except Exception:
            attempt += 1
            if attempt >= max_retries: return sentinel
            sleep(2 ** attempt + uniform(0, 1))
    return sentinel

`call i` is the outcome of the `i`-th invocation of the external service,
with `none` modelling a raised exception.  `fuel` is the number of loop
iterations still allowed; the loop is entered with
`fuel = maxRetries - attempt`, so running out of fuel coincides exactly
with the `while` guard `attempt < max_retries` turning false.  The result
pairs the number of invocations actually made with the returned value.
The function is total: no exception escapes the wrapper. -/
def retryGo {α β : Type} (call : Nat → Option α) (onSuccess : α → β) (sentinel : β)
    (maxRetries : Nat) : Nat → Nat → Nat → Nat × β
  | 0, _, ncalls => (ncalls, sentinel)
  | fuel + 1, attempt, ncalls =>
    if attempt < maxRetries then
      match call ncalls with
      | some v => (ncalls + 1, onSuccess v)
      | none =>
        if maxRetries ≤ attempt + 1 then (ncalls + 1, sentinel)
        else retryGo call onSuccess sentinel maxRetries fuel (attempt + 1) (ncalls + 1)
    else (ncalls, sentinel)

/-- Entry point of the retry loop: `attempt = 0`, no invocations yet. -/
def retryRun {α β : Type} (call : Nat → Option α) (onSuccess : α → β) (sentinel : β)
    (maxRetries : Nat) : Nat × β :=
  retryGo call onSuccess sentinel maxRetries maxRetries 0 0

/-- Embedding of `generate_axios_summary` (daily_report.py lines 69-102): retry wrapper
around the external summarization call; `some text` on success, sentinel
`None` after exhausting retries. -/
def generate_axios_summary (call : Nat → Option String) (maxRetries : Nat) :
    Nat × Option String :=
  retryRun call some none maxRetries

/-- Embedding of `analyze_content` (utility.py lines 86-112): retry wrapper around the
external classification call; sentinel
`{"sentiment": "Unknown", "entities": {}}` after exhausting retries. -/
def analyze_content (call : Nat → Option Analysis) (maxRetries : Nat) :
    Nat × Analysis :=
  retryRun call id classificationSentinel maxRetries

/-- Embedding of `get_company_selections` (utility.py lines 159-196): retry wrapper
around the company-extraction call; a list of (ticker, name) pairs on
success, sentinel `None` after exhausting retries. -/
def get_company_selections (call : Nat → Option (List (String × String)))
    (maxRetries : Nat) : Nat × Option (List (String × String)) :=
  retryRun call some none maxRetries

/-- Embedding of `generate_investment_memo` (utility.py lines 198-274): retry wrapper
around the memo-generation call; sentinel `None` after exhausting
retries. -/
def generate_investment_memo (call : Nat → Option String) (maxRetries : Nat) :
    Nat × Option String :=
  retryRun call some none maxRetries

/-- If every invocation of the external service fails, the retry loop
started at `attempt` with `fuel ≥ maxRetries - attempt` makes exactly
`maxRetries - attempt` further invocations and returns the sentinel. -/
theorem retryGo_allFail {α β : Type} (call : Nat → Option α) (onSuccess : α → β)
    (sentinel : β) (maxRetries : Nat) (h : ∀ i, call i = none) :
    ∀ fuel attempt ncalls, maxRetries ≤ attempt + fuel →
      retryGo call onSuccess sentinel maxRetries fuel attempt ncalls =
        (ncalls + (maxRetries - attempt), sentinel) := by
  intro fuel
  induction fuel with
  | zero =>
    intro attempt ncalls hle
    have hz : maxRetries - attempt = 0 := by omega
    simp [retryGo, hz]
  | succ fuel ih =>
    intro attempt ncalls hle
    by_cases hlt : attempt < maxRetries
    · simp only [retryGo, hlt, if_true, h ncalls]
      by_cases h2 : maxRetries ≤ attempt + 1
      · simp only [h2, if_true, Prod.mk.injEq, and_true]
        omega
      · simp only [h2, if_false]
        rw [ih (attempt + 1) (ncalls + 1) (by omega)]
        have he : ncalls + 1 + (maxRetries - (attempt + 1)) =
            ncalls + (maxRetries - attempt) := by omega
        rw [he]
    · have hz : maxRetries - attempt = 0 := by omega
      simp [retryGo, hlt, hz]

/-- C3: every external AI call wrapper (summarization, classification,
company extraction, memo generation) whose underlying service fails on
every invocation makes exactly `max_retries` invocations, never more, and
returns its sentinel failure value (`None` for summarization, company
extraction and memo generation; `{"sentiment": "Unknown", "entities": {}}`
for classification); being total functions, the wrappers let no exception
escape. -/
theorem retry_bound_and_sentinel (maxRetries : Nat)
    (summaryCall : Nat → Option String) (classifyCall : Nat → Option Analysis)
    (companiesCall : Nat → Option (List (String × String)))
    (memoCall : Nat → Option String)
    (hs : ∀ i, summaryCall i = none) (hc : ∀ i, classifyCall i = none)
    (hco : ∀ i, companiesCall i = none) (hm : ∀ i, memoCall i = none) :
    generate_axios_summary summaryCall maxRetries = (maxRetries, none) ∧
    analyze_content classifyCall maxRetries = (maxRetries, classificationSentinel) ∧
    get_company_selections companiesCall maxRetries = (maxRetries, none) ∧
    generate_investment_memo memoCall maxRetries = (maxRetries, none) := by
  refine ⟨?_, ?_, ?_, ?_⟩
  · unfold generate_axios_summary retryRun
    rw [retryGo_allFail summaryCall some none maxRetries hs maxRetries 0 0 (by omega)]
    simp
  · unfold analyze_content retryRun
    rw [retryGo_allFail classifyCall id classificationSentinel maxRetries hc
      maxRetries 0 0 (by omega)]
    simp
  · unfold get_company_selections retryRun
    rw [retryGo_allFail companiesCall some none maxRetries hco maxRetries 0 0 (by omega)]
    simp
  · unfold generate_investment_memo retryRun
    rw [retryGo_allFail memoCall some none maxRetries hm maxRetries 0 0 (by omega)]
    simp

/-- C3 witness: with the default `max_retries = 3` and an external service
that fails on every invocation, each wrapper makes exactly 3 invocations
and returns its sentinel. -/
theorem retry_bound_and_sentinel_witness :
    generate_axios_summary (fun _ => none) 3 = (3, none) ∧
    analyze_content (fun _ => none) 3 = (3, classificationSentinel) ∧
    get_company_selections (fun _ => none) 3 = (3, none) ∧
    generate_investment_memo (fun _ => none) 3 = (3, none) :=
  retry_bound_and_sentinel 3 _ _ _ _
    (fun _ => rfl) (fun _ => rfl) (fun _ => rfl) (fun _ => rfl)

/-! ### Feed fetcher: full-text fallback, dedup skipping, length floor -/

/-- A parsed feed entry, with the defaults already applied exactly as the
code applies them (`entry.get('link', '')`, `entry.get('title', 'No
Title')`, `entry.get('summary', '')`, `entry.get('published', '')`). -/
structure FeedEntry where
  link : String
  title : String
  summary : String
  published : String
  deriving DecidableEq

/-- A feed source: human label plus the entries its feed parsed to
(`feedparser.parse(rss_url).entries`); an unreachable feed parses to an
empty entry list, which the loop skips. -/
structure FeedSource where
  name : String
  entries : List FeedEntry
  deriving DecidableEq

/-- A candidate article as built by `fetch_news_from_sources`
(daily_report.py lines 144-151). -/
structure Candidate where
  source : String
  title : String
  link : String
  date : String
  summary_text : String
  is_full_text : Bool
  deriving DecidableEq

/-- Body-text resolution for one entry (daily_report.py lines 128-142).
`extract url` is the outcome of `Article(url).download(); .parse()`:
`none` models a raised exception, `some t` yields `article.text = t`.
The code uses the full text iff `article.text and
len(article.text) > len(rss_summary)`. -/
def resolveBody (extract : String → Option String) (url rssSummary : String) :
    String × Bool :=
  match extract url with
  | some t =>
      if t ≠ "" ∧ rssSummary.length < t.length then (t, true)
      else (rssSummary, false)
  | none => (rssSummary, false)

/-- Processing of a single feed entry inside `fetch_news_from_sources`
(daily_report.py lines 118-151): skip if the link is already processed,
skip if the link is empty, resolve the body text, and keep the candidate
only if the resolved text is non-empty and longer than 100 characters. -/
def processEntry (extract : String → Option String) (processed : List String)
    (sourceName : String) (e : FeedEntry) : Option Candidate :=
  if e.link ∈ processed then none
  else if e.link = "" then none
  else
    let r := resolveBody extract e.link e.summary
    if r.1 ≠ "" ∧ 100 < r.1.length then
      some ⟨sourceName, e.title, e.link, e.published, r.1, r.2⟩
    else none

/-- Embedding of `fetch_news_from_sources` (daily_report.py lines 104-153): for each
source in order, take at most `maxPerSource` entries and append the
candidates the per-entry processing yields; output order is source-major,
entry-minor. -/
def fetch_news_from_sources (extract : String → Option String)
    (sources : List FeedSource) (maxPerSource : Nat) (processed : List String) :
    List Candidate :=
  sources.flatMap fun s =>
    (s.entries.take maxPerSource).filterMap (processEntry extract processed s.name)

/-- C6: body-text resolution uses the extracted full text, with
`is_full_text = true`, exactly when extraction succeeded and the text is
strictly longer than the inline feed summary (such a text is automatically
non-empty); when extraction raised, or yielded text no longer than the
summary (in particular empty text), the body is the feed summary with
`is_full_text = false`. -/
theorem fulltext_fallback_policy (extract : String → Option String)
    (url rssSummary : String) :
    (∀ t, extract url = some t → rssSummary.length < t.length →
      resolveBody extract url rssSummary = (t, true)) ∧
    (extract url = none →
      resolveBody extract url rssSummary = (rssSummary, false)) ∧
    (∀ t, extract url = some t → t.length ≤ rssSummary.length →
      resolveBody extract url rssSummary = (rssSummary, false)) := by
  refine ⟨?_, ?_, ?_⟩
  · intro t ht hlen
    have hne : t ≠ "" := by
      intro hz
      rw [hz] at hlen
      simp at hlen
    simp [resolveBody, ht, hne, hlen]
  · intro ht
    simp [resolveBody, ht]
  · intro t ht hlen
    have : ¬ (t ≠ "" ∧ rssSummary.length < t.length) := by
      rintro ⟨-, hlt⟩
      omega
    simp [resolveBody, ht, this]

/-- C6 witness: with feed summary "abc": an extraction yielding "abcdef"
(longer) gives the full text and `is_full_text = true`; a failed
extraction gives the summary; an extraction yielding "ab" (not longer)
gives the summary. -/
theorem fulltext_fallback_policy_witness :
    resolveBody (fun _ => some "abcdef") "u" "abc" = ("abcdef", true) ∧
    resolveBody (fun _ => none) "u" "abc" = ("abc", false) ∧
    resolveBody (fun _ => some "ab") "u" "abc" = ("abc", false) :=
  ⟨(fulltext_fallback_policy (fun _ => some "abcdef") "u" "abc").1 "abcdef" rfl (by decide),
   (fulltext_fallback_policy (fun _ => none) "u" "abc").2.1 rfl,
   (fulltext_fallback_policy (fun _ => some "ab") "u" "abc").2.2 "ab" rfl (by decide)⟩

/-- An entry that is covered by `processed'` (its link is already
processed there, or it would not have produced a candidate whose link
escapes `processed'`) yields no candidate when fetching against
`processed'`. -/
theorem processEntry_none_of_covered (extract : String → Option String)
    (processed processed' : List String) (name : String) (e : FeedEntry)
    (h1 : e.link ∈ processed → e.link ∈ processed')
    (h2 : ∀ c, processEntry extract processed name e = some c →
      c.link ∈ processed') :
    processEntry extract processed' name e = none := by
  by_cases hm : e.link ∈ processed'
  · simp [processEntry, hm]
  · have hnp : e.link ∉ processed := fun h => hm (h1 h)
    by_cases hz : e.link = ""
    · simp [processEntry, hm, hz]
    · by_cases hc : (resolveBody extract e.link e.summary).1 ≠ "" ∧
        100 < (resolveBody extract e.link e.summary).1.length
      · exfalso
        apply hm
        apply h2 ⟨name, e.title, e.link, e.published,
          (resolveBody extract e.link e.summary).1,
          (resolveBody extract e.link e.summary).2⟩
        simp [processEntry, hnp, hz, hc]
      · simp [processEntry, hm, hz, hc]

/-- C7: the feed fetcher skips every entry whose link is empty or already
in the processed-URL set; consequently, a second run over the same feed
content and the same extraction outcomes, against a processed-URL set that
contains every URL returned by the first run as well as the first run's
processed set, yields no candidates at all. -/
theorem dedup_idempotence (extract : String → Option String)
    (sources : List FeedSource) (m : Nat) (processed processed' : List String)
    (h1 : ∀ u ∈ processed, u ∈ processed')
    (h2 : ∀ c ∈ fetch_news_from_sources extract sources m processed,
      c.link ∈ processed') :
    (∀ name e, e.link ∈ processed' ∨ e.link = "" →
      processEntry extract processed' name e = none) ∧
    fetch_news_from_sources extract sources m processed' = [] := by
  constructor
  · intro name e h
    rcases h with hm | hz
    · simp [processEntry, hm]
    · by_cases hm : e.link ∈ processed'
      · simp [processEntry, hm]
      · simp [processEntry, hm, hz]
  · rw [List.eq_nil_iff_forall_not_mem]
    intro c hcmem
    simp only [fetch_news_from_sources, List.mem_flatMap, List.mem_filterMap] at hcmem
    obtain ⟨s, hs, e, he, hpe⟩ := hcmem
    have h2' : ∀ c', processEntry extract processed s.name e = some c' →
        c'.link ∈ processed' := by
      intro c' hc'
      apply h2
      simp only [fetch_news_from_sources, List.mem_flatMap, List.mem_filterMap]
      exact ⟨s, hs, e, he, hc'⟩
    have hnone := processEntry_none_of_covered extract processed processed'
      s.name e (fun h => h1 _ h) h2'
    rw [hnone] at hpe
    exact Option.noConfusion hpe

/-- A body text longer than 100 characters, for concrete instances. -/
def sampleLongText : String :=
  "Lorem ipsum dolor sit amet, consectetur adipiscing elit, sed do eiusmod tempor incididunt ut labore et dolore magna aliqua."

set_option maxRecDepth 4000 in
/-- C7 witness: one source with one long-summary entry; the first run
(empty processed set, failing extraction) returns that entry's candidate,
and a second run against a processed set holding its URL returns no
candidates. -/
theorem dedup_idempotence_witness :
    fetch_news_from_sources (fun _ => none)
      [⟨"S", [⟨"u1", "T", sampleLongText, "d"⟩]⟩] 10 ["u1"] = [] :=
  (dedup_idempotence (fun _ => none)
    [⟨"S", [⟨"u1", "T", sampleLongText, "d"⟩]⟩] 10 [] ["u1"]
    (by simp) (by decide)).2

/-! ### Enrichment stage: summarize, classify, collect, ledger update -/

/-- An enriched article as built by `process_single_article`
(daily_report.py lines 270-276). -/
structure Enriched where
  source : String
  date : String
  title : String
  summary : String
  link : String
  is_full_text : Bool
  sentiment : String
  entities : List (String × List String)
  deriving DecidableEq

/-- Embedding of `process_single_article` (daily_report.py lines 261-283): run the
retry-wrapped summarization on the candidate's text; a `None` or empty
summary drops the candidate (`return None`, logged); otherwise classify
the summary with `utility.analyze_content` and build the enriched record,
reading `sentiment` and `entities` from the analysis result.  `summarize`
and `analyze` are the already-wrapped calls, so they are total. -/
def process_single_article (summarize : String → Option String)
    (analyze : String → Analysis) (a : Candidate) : Option Enriched :=
  match summarize a.summary_text with
  | none => none
  | some s =>
      if s = "" then none
      else some ⟨a.source, a.date, a.title, s, a.link, a.is_full_text,
        (analyze s).sentiment, (analyze s).entities⟩

/-- Python dict assignment `ledger[url] = ts` on an insertion-ordered
ledger: overwrite in place when the key exists, else append. -/
def ledgerInsert (ledger : List (String × Int)) (url : String) (ts : Int) :
    List (String × Int) :=
  if ledger.any (fun p => decide (p.1 = url)) then
    ledger.map (fun p => if p.1 = url then (url, ts) else p)
  else ledger ++ [(url, ts)]

/-- The ledger has an entry keyed by `url`. -/
def hasKey (ledger : List (String × Int)) (url : String) : Prop :=
  ∃ p ∈ ledger, p.1 = url

instance (ledger : List (String × Int)) (url : String) :
    Decidable (hasKey ledger url) :=
  inferInstanceAs (Decidable (∃ p ∈ ledger, p.1 = url))

/-- One step of the enrichment collection loop of `run_news_report`
(daily_report.py lines 322-326): a successful result is appended to the
collected list and its URL entered into the ledger with the completion
timestamp; a failed candidate contributes nothing. -/
def enrichStep (summarize : String → Option String) (analyze : String → Analysis)
    (now : Int) (acc : List Enriched × List (String × Int)) (c : Candidate) :
    List Enriched × List (String × Int) :=
  match process_single_article summarize analyze c with
  | some e => (acc.1 ++ [e], ledgerInsert acc.2 e.link now)
  | none => acc

/-- The enrichment stage of `run_news_report` (daily_report.py lines
316-326), folded over the candidates.  Workers finish in nondeterministic
order; the fold uses submission order, and none of the properties proved
here depend on that order. -/
def enrich_articles (summarize : String → Option String)
    (analyze : String → Analysis) (now : Int) (candidates : List Candidate)
    (ledger : List (String × Int)) :
    List Enriched × List (String × Int) :=
  candidates.foldl (enrichStep summarize analyze now) ([], ledger)

/-- A candidate whose summarization fails is dropped by the worker. -/
theorem process_single_article_none (summarize : String → Option String)
    (analyze : String → Analysis) (a : Candidate)
    (hf : summarize a.summary_text = none) :
    process_single_article summarize analyze a = none := by
  simp [process_single_article, hf]

/-- An emitted enriched record carries its candidate's URL. -/
theorem process_single_article_link (summarize : String → Option String)
    (analyze : String → Analysis) (a : Candidate) (e : Enriched)
    (h : process_single_article summarize analyze a = some e) :
    e.link = a.link := by
  unfold process_single_article at h
  cases hs : summarize a.summary_text with
  | none => rw [hs] at h; exact Option.noConfusion h
  | some s =>
      rw [hs] at h
      by_cases hz : s = ""
      · simp [hz] at h
      · simp [hz] at h
        subst h
        rfl

/-- Inserting under a key different from `url` neither adds nor removes a
ledger entry keyed by `url`. -/
theorem hasKey_ledgerInsert_ne (ledger : List (String × Int))
    (link url : String) (ts : Int) (hne : link ≠ url) :
    hasKey (ledgerInsert ledger link ts) url ↔ hasKey ledger url := by
  unfold ledgerInsert
  by_cases hk : ledger.any (fun p => decide (p.1 = link)) = true
  · rw [if_pos hk]
    unfold hasKey
    constructor
    · rintro ⟨p, hp, hp1⟩
      rw [List.mem_map] at hp
      obtain ⟨q, hq, rfl⟩ := hp
      by_cases h : q.1 = link
      · rw [if_pos h] at hp1
        exact absurd hp1 hne
      · rw [if_neg h] at hp1
        exact ⟨q, hq, hp1⟩
    · rintro ⟨p, hp, hp1⟩
      have h : p.1 ≠ link := fun hh => hne (hh ▸ hp1 ▸ rfl)
      refine ⟨if p.1 = link then (link, ts) else p, List.mem_map_of_mem _ hp, ?_⟩
      rw [if_neg h]
      exact hp1
  · rw [if_neg hk]
    unfold hasKey
    constructor
    · rintro ⟨p, hp, hp1⟩
      rcases List.mem_append.mp hp with h | h
      · exact ⟨p, h, hp1⟩
      · rw [List.mem_singleton] at h
        subst h
        exact absurd hp1 hne
    · rintro ⟨p, hp, hp1⟩
      exact ⟨p, List.mem_append.mpr (Or.inl hp), hp1⟩

/-- Invariant of the enrichment fold: if every candidate carrying `url`
fails summarization, then no collected record carries `url` and the
presence of a ledger entry for `url` is unchanged. -/
theorem enrich_fold_avoids_url (summarize : String → Option String)
    (analyze : String → Analysis) (now : Int) (url : String) :
    ∀ (cs : List Candidate) (acc : List Enriched × List (String × Int)),
      (∀ c ∈ cs, c.link = url → summarize c.summary_text = none) →
      (∀ e ∈ acc.1, e.link ≠ url) →
      (∀ e ∈ (cs.foldl (enrichStep summarize analyze now) acc).1, e.link ≠ url) ∧
        (hasKey (cs.foldl (enrichStep summarize analyze now) acc).2 url ↔
          hasKey acc.2 url) := by
  intro cs
  induction cs with
  | nil =>
      intro acc _ hacc
      exact ⟨hacc, Iff.rfl⟩
  | cons c cs ih =>
      intro acc hfail hacc
      rw [List.foldl_cons]
      cases hp : process_single_article summarize analyze c with
      | none =>
          have hstep : enrichStep summarize analyze now acc c = acc := by
            simp [enrichStep, hp]
          rw [hstep]
          exact ih acc (fun c' hc' => hfail c' (List.mem_cons_of_mem _ hc')) hacc
      | some e =>
          have hele : e.link ≠ url := by
            intro helink
            have hclink : c.link = url := by
              rw [← process_single_article_link summarize analyze c e hp]
              exact helink
            have := process_single_article_none summarize analyze c
              (hfail c (List.mem_cons_self _ _) hclink)
            rw [this] at hp
            exact Option.noConfusion hp
          have hstep : enrichStep summarize analyze now acc c =
              (acc.1 ++ [e], ledgerInsert acc.2 e.link now) := by
            simp [enrichStep, hp]
          rw [hstep]
          have hacc' : ∀ e' ∈ acc.1 ++ [e], e'.link ≠ url := by
            intro e' he'
            rcases List.mem_append.mp he' with h | h
            · exact hacc e' h
            · rw [List.mem_singleton] at h
              subst h
              exact hele
          obtain ⟨h1, h2⟩ := ih (acc.1 ++ [e], ledgerInsert acc.2 e.link now)
            (fun c' hc' => hfail c' (List.mem_cons_of_mem _ hc')) hacc'
          exact ⟨h1, h2.trans (hasKey_ledgerInsert_ne acc.2 e.link url now hele)⟩

/-- C4: a candidate whose summarization fails (returns the `None`
sentinel) yields no enriched article — no record in the collected output
carries its URL, given that every candidate with that URL fails — and its
URL is not added to the deduplication ledger that is saved at the end of
the run: the ledger has an entry for that URL after the stage iff it
already had one before. -/
theorem summarization_failure_drop (summarize : String → Option String)
    (analyze : String → Analysis) (now : Int) (url : String)
    (candidates : List Candidate) (ledger : List (String × Int))
    (hfail : ∀ c ∈ candidates, c.link = url → summarize c.summary_text = none) :
    (∀ e ∈ (enrich_articles summarize analyze now candidates ledger).1,
      e.link ≠ url) ∧
    (hasKey (enrich_articles summarize analyze now candidates ledger).2 url ↔
      hasKey ledger url) := by
  unfold enrich_articles
  exact enrich_fold_avoids_url summarize analyze now url candidates ([], ledger)
    hfail (by intro e he; exact absurd he (List.not_mem_nil e))

/-- C4 witness: one candidate whose summarization fails, empty starting
ledger: no output record carries its URL "u1" and the saved ledger has an
entry for "u1" iff the empty ledger had one. -/
theorem summarization_failure_drop_witness :
    (∀ e ∈ (enrich_articles (fun _ => none) (fun _ => classificationSentinel) 5
      [⟨"S", "T", "u1", "d", "body", false⟩] []).1, e.link ≠ "u1") ∧
    (hasKey (enrich_articles (fun _ => none) (fun _ => classificationSentinel) 5
      [⟨"S", "T", "u1", "d", "body", false⟩] []).2 "u1" ↔ hasKey [] "u1") :=
  summarization_failure_drop (fun _ => none) (fun _ => classificationSentinel) 5
    "u1" [⟨"S", "T", "u1", "d", "body", false⟩] []
    (fun _ _ _ => rfl)

/-- C5: a candidate whose summarization succeeds with a non-empty summary
but whose classification call fails on all (default 3) retry attempts is
still emitted, with `sentiment = "Unknown"` and an empty `entities`
mapping. -/
theorem classification_failure_default (summarize : String → Option String)
    (call : Nat → Option Analysis) (c : Candidate) (s : String)
    (hs : summarize c.summary_text = some s) (hne : s ≠ "")
    (hfail : ∀ i, call i = none) :
    process_single_article summarize (fun _ => (analyze_content call 3).2) c =
      some ⟨c.source, c.date, c.title, s, c.link, c.is_full_text,
        "Unknown", []⟩ := by
  have hA : (analyze_content call 3).2 = classificationSentinel := by
    unfold analyze_content retryRun
    rw [retryGo_allFail call id classificationSentinel 3 hfail 3 0 0 (by omega)]
  simp [process_single_article, hs, hne, hA, classificationSentinel]

/-- C5 witness: a concrete candidate, a summarization returning "ok!",
and a classification service failing every invocation: the record is
emitted with sentiment "Unknown" and no entities. -/
theorem classification_failure_default_witness :
    process_single_article (fun _ => some "ok!")
      (fun _ => (analyze_content (fun _ => none) 3).2)
      ⟨"S", "T", "u1", "d", "body", true⟩ =
      some ⟨"S", "d", "T", "ok!", "u1", true, "Unknown", []⟩ :=
  classification_failure_default (fun _ => some "ok!") (fun _ => none)
    ⟨"S", "T", "u1", "d", "body", true⟩ "ok!" rfl (by decide) (fun _ => rfl)

/-! ### Archive store: daily files, range load, age-based eviction -/

/-- Embedding of `load_archived_news` (utility.py lines 277-298): for `i` in
`range(days_to_analyze)`, look up the archive file for day `today - i`
(`news_YYYY-MM-DD.json`); a present, readable file contributes its records
in order; a missing or unreadable file is skipped silently.  The archive
directory is modelled as a partial map from day keys to the record lists
the files deserialize to. -/
def load_archived_news (store : Int → Option (List Enriched)) (today : Int)
    (daysToAnalyze : Nat) : List Enriched :=
  (List.range daysToAnalyze).foldl
    (fun acc i =>
      match store (today - Int.ofNat i) with
      | some l => acc ++ l
      | none => acc)
    []

/-- The archive write of `run_news_report` (daily_report.py lines
353-358): the file for day `d` is created or overwritten with the run's
enriched articles. -/
def writeArchive (store : Int → Option (List Enriched)) (d : Int)
    (records : List Enriched) : Int → Option (List Enriched) :=
  fun x => if x = d then some records else store x

/-- The range load concatenates, day by day, the record lists of the
present days. -/
theorem load_foldl_append (store : Int → Option (List Enriched)) (today : Int) :
    ∀ (l : List Nat) (acc : List Enriched),
      l.foldl (fun acc i =>
        match store (today - Int.ofNat i) with
        | some x => acc ++ x
        | none => acc) acc =
      acc ++ (l.map fun i => (store (today - Int.ofNat i)).getD []).flatten := by
  intro l
  induction l with
  | nil => intro acc; simp
  | cons j l ih =>
      intro acc
      rw [List.foldl_cons, ih]
      cases hj : store (today - Int.ofNat j) with
      | none =>
          have hj2 : store (today - (j : Int)) = none := hj
          simp [hj, hj2]
      | some x =>
          have hj2 : store (today - (j : Int)) = some x := hj
          simp [hj, hj2]

/-- C2: archive round-trip.  After a run writes the record list for day
`D`, loading a range of `n` days from a load day whose range covers `D`
(`D = today - i` for some `i < n`) returns a concatenation that contains
that record list contiguously, element for element and in order. -/
theorem archive_roundtrip (store : Int → Option (List Enriched))
    (records : List Enriched) (D today : Int) (n i : Nat)
    (hi : i < n) (hD : D = today - Int.ofNat i) :
    ∃ pre post,
      load_archived_news (writeArchive store D records) today n =
        pre ++ records ++ post := by
  unfold load_archived_news
  rw [load_foldl_append]
  have hlen : i < (List.range n).length := by simpa using hi
  have hsplit : List.range n =
      (List.range n).take i ++ i :: (List.range n).drop (i + 1) := by
    conv_lhs => rw [← List.take_append_drop i (List.range n)]
    rw [List.drop_eq_getElem_cons hlen]
    simp
  have hfi : (writeArchive store D records (today - Int.ofNat i)).getD [] =
      records := by
    simp [writeArchive, hD]
  refine ⟨(((List.range n).take i).map fun j =>
      (writeArchive store D records (today - Int.ofNat j)).getD []).flatten,
    (((List.range n).drop (i + 1)).map fun j =>
      (writeArchive store D records (today - Int.ofNat j)).getD []).flatten, ?_⟩
  conv_lhs => rw [hsplit, List.map_append, List.map_cons, List.flatten_append,
    List.flatten_cons, hfi]
  simp [List.append_assoc]

/-- C2 witness: write one record for day 0 into an empty archive and load
7 days back from day 0: the loaded list contains that record list
contiguously. -/
theorem archive_roundtrip_witness :
    ∃ pre post,
      load_archived_news
        (writeArchive (fun _ => none) 0
          [⟨"S", "d", "T", "sum", "u", true, "Positive", []⟩]) 0 7 =
        pre ++ [⟨"S", "d", "T", "sum", "u", true, "Positive", []⟩] ++ post :=
  archive_roundtrip (fun _ => none)
    [⟨"S", "d", "T", "sum", "u", true, "Positive", []⟩] 0 0 7 0
    (by decide) rfl

/-- A file in the archive directory: its name, its last-modified time,
and whether examining or deleting it raises (a permission error and the
like). -/
structure ArchiveFile where
  name : String
  mtime : Int
  opFails : Bool
  deriving DecidableEq

/-- The per-file decision of the eviction sweep: a file is deleted iff
its operations do not fail and its last-modified time is strictly older
than `now - days_to_keep` days. -/
def fileDeleted (now daysToKeep : Int) (f : ArchiveFile) : Bool :=
  !f.opFails && decide (f.mtime < now - daysToKeep * SECONDS_PER_DAY)

/-- Embedding of `cleanup_old_files` (utility.py lines 377-394): `cutoff = time.time()
- days_to_keep * 86400`; the files of the directory are visited in order;
a file whose `getmtime` is strictly below the cutoff is removed; an
exception while examining or deleting a file is caught, logged, and the
loop continues with the next file.  The result is the list of deleted
file names in visit order. -/
def cleanup_old_files (now daysToKeep : Int) (files : List ArchiveFile) :
    List String :=
  files.foldl
    (fun deleted f =>
      if f.opFails then deleted
      else if f.mtime < now - daysToKeep * SECONDS_PER_DAY then
        deleted ++ [f.name]
      else deleted)
    []

/-- The eviction fold appends each file's own contribution, so one file's
failure cannot affect the processing of the others. -/
theorem cleanup_foldl_append (now daysToKeep : Int) :
    ∀ (files : List ArchiveFile) (acc : List String),
      files.foldl
        (fun deleted f =>
          if f.opFails then deleted
          else if f.mtime < now - daysToKeep * SECONDS_PER_DAY then
            deleted ++ [f.name]
          else deleted)
        acc =
      acc ++ (files.filter (fileDeleted now daysToKeep)).map
        (fun f => f.name) := by
  intro files
  induction files with
  | nil => intro acc; simp
  | cons f files ih =>
      intro acc
      rw [List.foldl_cons, ih]
      cases hop : f.opFails with
      | true => simp [hop, fileDeleted]
      | false =>
          by_cases hm : f.mtime < now - daysToKeep * SECONDS_PER_DAY
          · simp [hop, hm, fileDeleted]
          · simp [hop, hm, fileDeleted]

/-- C8: the eviction sweep deletes exactly the files whose per-file
decision fires — each file's outcome depends only on that file, so a
failure on one file never prevents the remaining files from being
processed — and for a file whose operations succeed the decision fires
iff its last-modified time is strictly older than `now` minus the
horizon; a file exactly at the horizon is kept. -/
theorem eviction_boundary (now daysToKeep : Int) (files : List ArchiveFile) :
    cleanup_old_files now daysToKeep files =
      (files.filter (fileDeleted now daysToKeep)).map (fun f => f.name) ∧
    (∀ f : ArchiveFile, f.opFails = false →
      (fileDeleted now daysToKeep f = true ↔
        f.mtime < now - daysToKeep * SECONDS_PER_DAY)) := by
  constructor
  · unfold cleanup_old_files
    rw [cleanup_foldl_append]
    simp
  · intro f hop
    simp [fileDeleted, hop]

/-- C8 witness (`days_to_keep = 400`, `now = 0`): a file a day older than
the horizon whose deletion fails is skipped, a file a day older than the
horizon is deleted, and a file exactly at the horizon is kept — and the
failure on the first file does not stop the sweep from deleting the
second. -/
theorem eviction_boundary_witness :
    cleanup_old_files 0 400
      [⟨"a", -401 * 86400, true⟩, ⟨"b", -401 * 86400, false⟩,
       ⟨"c", -400 * 86400, false⟩] = ["b"] ∧
    (fileDeleted 0 400 ⟨"c", -400 * 86400, false⟩ = true ↔
      (-400 * 86400 : Int) < 0 - 400 * SECONDS_PER_DAY) :=
  ⟨((eviction_boundary 0 400
      [⟨"a", -401 * 86400, true⟩, ⟨"b", -401 * 86400, false⟩,
       ⟨"c", -400 * 86400, false⟩]).1).trans (by decide),
   (eviction_boundary 0 400
      [⟨"a", -401 * 86400, true⟩, ⟨"b", -401 * 86400, false⟩,
       ⟨"c", -400 * 86400, false⟩]).2 ⟨"c", -400 * 86400, false⟩ rfl⟩

/-! ### The daily run as a transformer of the persisted state -/

/-- One file of the archive directory as the daily run sees it: its day
key, its last-modified time, and the records it holds. -/
structure ArchiveDay where
  date : Int
  mtime : Int
  records : List Enriched
  deriving DecidableEq

/-- The persisted state a daily run touches: the ledger file
(`processed_urls.json`; `none` models a missing or corrupt file, which
loads as the empty mapping) and the archive directory
(`daily_news_data/news_YYYY-MM-DD.json`). -/
structure RunState where
  ledgerFile : Option (List (String × Int))
  archive : List ArchiveDay
  deriving DecidableEq

/-- Writing `news_{today}.json` (daily_report.py lines 353-358):
overwrite the day's file if present, else create it; the written file's
last-modified time is the write time `now`. -/
def upsertArchive (arch : List ArchiveDay) (d now : Int)
    (recs : List Enriched) : List ArchiveDay :=
  if arch.any (fun a => decide (a.date = d)) then
    arch.map (fun a => if a.date = d then ⟨d, now, recs⟩ else a)
  else arch ++ [⟨d, now, recs⟩]

/-- The end-of-run eviction sweep
(`utility.cleanup_old_files(DATA_DIR, days_to_keep=400)`) as it acts on
the directory contents: the files strictly older than the horizon
disappear. -/
def evictArchive (arch : List ArchiveDay) (now daysToKeep : Int) :
    List ArchiveDay :=
  arch.filter (fun a => decide (¬ a.mtime < now - daysToKeep * SECONDS_PER_DAY))

/-- Embedding of `run_news_report` (daily_report.py lines 285-364) as a transformer of
the persisted state.  `extract`, `summarize` and `analyze` are the run's
interaction with the network and the AI service; `now` is the run's UTC
timestamp, `todayKey` the Eastern calendar day keying the archive file.
In code order: load the ledger (a missing or corrupt file loads empty),
purge it, fetch candidates against the purged URL set; with no candidates
the purged ledger is saved and the run ends; otherwise all candidates are
enriched; if no summarization succeeded the run returns with no write at
all; otherwise the updated ledger is saved, the day's archive file is
written, and the eviction sweep (horizon 400 days) runs.  PDF generation
and email delivery touch no persisted state and are not modelled. -/
def run_news_report (extract : String → Option String)
    (summarize : String → Option String) (analyze : String → Analysis)
    (sources : List FeedSource) (now todayKey : Int) (s : RunState) :
    RunState :=
  if fetch_news_from_sources extract sources 10
      ((purge (s.ledgerFile.getD []) now).map (fun p => p.1)) = [] then
    { s with ledgerFile := some (purge (s.ledgerFile.getD []) now) }
  else if (enrich_articles summarize analyze now
      (fetch_news_from_sources extract sources 10
        ((purge (s.ledgerFile.getD []) now).map (fun p => p.1)))
      (purge (s.ledgerFile.getD []) now)).1 = [] then
    s
  else
    { ledgerFile := some (enrich_articles summarize analyze now
        (fetch_news_from_sources extract sources 10
          ((purge (s.ledgerFile.getD []) now).map (fun p => p.1)))
        (purge (s.ledgerFile.getD []) now)).2,
      archive := evictArchive
        (upsertArchive s.archive todayKey now
          (enrich_articles summarize analyze now
            (fetch_news_from_sources extract sources 10
              ((purge (s.ledgerFile.getD []) now).map (fun p => p.1)))
            (purge (s.ledgerFile.getD []) now)).1)
        now 400 }

/-- When every candidate fails summarization, the enrichment fold leaves
its accumulator untouched. -/
theorem enrich_fold_id (summarize : String → Option String)
    (analyze : String → Analysis) (now : Int) :
    ∀ (cs : List Candidate) (acc : List Enriched × List (String × Int)),
      (∀ c ∈ cs, summarize c.summary_text = none) →
      cs.foldl (enrichStep summarize analyze now) acc = acc := by
  intro cs
  induction cs with
  | nil => intro acc _; rfl
  | cons c cs ih =>
      intro acc hfail
      rw [List.foldl_cons]
      have hstep : enrichStep summarize analyze now acc c = acc := by
        simp [enrichStep, process_single_article_none summarize analyze c
          (hfail c (List.mem_cons_self _ _))]
      rw [hstep]
      exact ih acc (fun c' hc' => hfail c' (List.mem_cons_of_mem _ hc'))

/-- C9: a run that fetched at least one candidate but in which no
candidate's summarization succeeded returns before any persisted side
effect: the resulting state — ledger file and archive directory alike —
is exactly the input state, so the in-memory purge is lost, no archive
file is written and no eviction sweep runs. -/
theorem allfail_run_persists_nothing (extract : String → Option String)
    (summarize : String → Option String) (analyze : String → Analysis)
    (sources : List FeedSource) (now todayKey : Int) (s : RunState)
    (hraw : fetch_news_from_sources extract sources 10
      ((purge (s.ledgerFile.getD []) now).map (fun p => p.1)) ≠ [])
    (hfail : ∀ c ∈ fetch_news_from_sources extract sources 10
      ((purge (s.ledgerFile.getD []) now).map (fun p => p.1)),
      summarize c.summary_text = none) :
    run_news_report extract summarize analyze sources now todayKey s = s := by
  have hempty : (enrich_articles summarize analyze now
      (fetch_news_from_sources extract sources 10
        ((purge (s.ledgerFile.getD []) now).map (fun p => p.1)))
      (purge (s.ledgerFile.getD []) now)).1 = [] := by
    unfold enrich_articles
    rw [enrich_fold_id summarize analyze now _ _ hfail]
  unfold run_news_report
  rw [if_neg hraw, if_pos hempty]

set_option maxRecDepth 4000 in
/-- C9 witness: one source whose single entry extracts to a long text, a
summarization service that always fails, an initially absent ledger file
and an empty archive: the run maps the state to itself. -/
theorem allfail_run_persists_nothing_witness :
    run_news_report (fun _ => some sampleLongText) (fun _ => none)
      (fun _ => classificationSentinel) [⟨"S", [⟨"u1", "T", "", "d"⟩]⟩]
      0 0 ⟨none, []⟩ = ⟨none, []⟩ :=
  allfail_run_persists_nothing (fun _ => some sampleLongText) (fun _ => none)
    (fun _ => classificationSentinel) [⟨"S", [⟨"u1", "T", "", "d"⟩]⟩]
    0 0 ⟨none, []⟩ (by decide) (fun _ _ => rfl)

/-! ### Weekly trend statistics -/

/-- An article as the weekly report reads it back from the archive JSON;
`sentiment` is `none` when the object lacks the key, which
`article.get('sentiment', 'Unknown')` defaults to "Unknown". -/
structure WArticle where
  sentiment : Option String
  deriving DecidableEq

/-- Embedding of `article.get('sentiment', 'Unknown')` (weekly_report.py line 22). -/
def getSentiment (a : WArticle) : String := a.sentiment.getD "Unknown"

/-- A sentiment percentage as reported: the literal string "0%" when
there are no sentiments at all, otherwise the exact ratio the percentage
string is formatted from. -/
inductive SentimentPct where
  | zeroPct : SentimentPct
  | pct (q : ℚ) : SentimentPct
  deriving DecidableEq

/-- The sentiment part of `analyze_weekly_trends` (weekly_report.py lines
22-29): the sentiments of all articles are counted
(`Counter(sentiments)`); `total_sentiments = sum(counts.values())`, which
equals the number of articles; each of the Positive, Negative and Neutral
percentages is that sentiment's count over `total_sentiments`, or the
string "0%" when `total_sentiments` is zero. -/
def sentiment_summary (articles : List WArticle) :
    SentimentPct × SentimentPct × SentimentPct :=
  let sentiments := articles.map getSentiment
  if sentiments.length = 0 then
    (SentimentPct.zeroPct, SentimentPct.zeroPct, SentimentPct.zeroPct)
  else
    (SentimentPct.pct (sentiments.count "Positive" / (sentiments.length : ℚ)),
     SentimentPct.pct (sentiments.count "Negative" / (sentiments.length : ℚ)),
     SentimentPct.pct (sentiments.count "Neutral" / (sentiments.length : ℚ)))

/-- The three named sentiment counts never exceed the list length. -/
theorem count3_le (l : List String) :
    l.count "Positive" + l.count "Negative" + l.count "Neutral" ≤ l.length := by
  induction l with
  | nil => simp
  | cons a l ih =>
      simp only [List.count_cons, List.length_cons, beq_iff_eq]
      by_cases h1 : a = "Positive"
      · rw [if_pos h1, if_neg (by rw [h1]; decide), if_neg (by rw [h1]; decide)]
        omega
      · by_cases h2 : a = "Negative"
        · rw [if_neg h1, if_pos h2, if_neg (by rw [h2]; decide)]
          omega
        · by_cases h3 : a = "Neutral"
          · rw [if_neg h1, if_neg h2, if_pos h3]
            omega
          · rw [if_neg h1, if_neg h2, if_neg h3]
            omega

/-- With an "Unknown" sentiment present, the three named counts fall
strictly short of the list length. -/
theorem count3_lt (l : List String) (hu : "Unknown" ∈ l) :
    l.count "Positive" + l.count "Negative" + l.count "Neutral" < l.length := by
  induction l with
  | nil => cases hu
  | cons a l ih =>
      rw [List.mem_cons] at hu
      simp only [List.count_cons, List.length_cons, beq_iff_eq]
      rcases hu with hu | hu
      · have h := count3_le l
        rw [if_neg (by rw [← hu]; decide), if_neg (by rw [← hu]; decide),
          if_neg (by rw [← hu]; decide)]
        omega
      · have h := ih hu
        by_cases h1 : a = "Positive"
        · rw [if_pos h1, if_neg (by rw [h1]; decide), if_neg (by rw [h1]; decide)]
          omega
        · by_cases h2 : a = "Negative"
          · rw [if_neg h1, if_pos h2, if_neg (by rw [h2]; decide)]
            omega
          · by_cases h3 : a = "Neutral"
            · rw [if_neg h1, if_neg h2, if_pos h3]
              omega
            · rw [if_neg h1, if_neg h2, if_neg h3]
              omega

/-- C10: the weekly sentiment percentages use the full article count —
"Unknown" included — as denominator: an empty list reports "0%" three
times; a non-empty list reports, for each of Positive, Negative and
Neutral, that sentiment's count divided by the number of articles, and
whenever some article's sentiment resolves to "Unknown" the three
reported ratios sum to strictly less than 1 (i.e. less than 100%). -/
theorem weekly_sentiment_denominator :
    sentiment_summary [] =
      (SentimentPct.zeroPct, SentimentPct.zeroPct, SentimentPct.zeroPct) ∧
    ∀ articles : List WArticle, articles ≠ [] →
      (sentiment_summary articles =
        (SentimentPct.pct ((articles.map getSentiment).count "Positive" /
          (articles.length : ℚ)),
         SentimentPct.pct ((articles.map getSentiment).count "Negative" /
          (articles.length : ℚ)),
         SentimentPct.pct ((articles.map getSentiment).count "Neutral" /
          (articles.length : ℚ)))) ∧
      ((∃ a ∈ articles, getSentiment a = "Unknown") →
        ((articles.map getSentiment).count "Positive" : ℚ) /
            (articles.length : ℚ) +
          ((articles.map getSentiment).count "Negative" : ℚ) /
            (articles.length : ℚ) +
          ((articles.map getSentiment).count "Neutral" : ℚ) /
            (articles.length : ℚ) < 1) := by
  constructor
  · rfl
  · intro articles hne
    have htot : articles.length ≠ 0 :=
      fun h => hne (List.length_eq_zero.mp h)
    constructor
    · simp only [sentiment_summary, List.length_map]
      rw [if_neg htot]
    · rintro ⟨a, ha, hA⟩
      have hmem : "Unknown" ∈ articles.map getSentiment :=
        List.mem_map.mpr ⟨a, ha, hA⟩
      have hsum := count3_lt (articles.map getSentiment) hmem
      rw [List.length_map] at hsum
      have hpos : (0 : ℚ) < (articles.length : ℚ) := by
        exact_mod_cast Nat.pos_of_ne_zero htot
      rw [div_add_div_same, div_add_div_same, div_lt_one hpos]
      exact_mod_cast hsum

/-- C10 witness: one "Positive" article and one article without a
sentiment key (defaulting to "Unknown"): the three reported ratios sum to
strictly less than 1. -/
theorem weekly_sentiment_denominator_witness :
    (([(⟨some "Positive"⟩ : WArticle), ⟨none⟩].map getSentiment).count
        "Positive" : ℚ) / (([(⟨some "Positive"⟩ : WArticle), ⟨none⟩].length : ℚ)) +
      (([(⟨some "Positive"⟩ : WArticle), ⟨none⟩].map getSentiment).count
        "Negative" : ℚ) / (([(⟨some "Positive"⟩ : WArticle), ⟨none⟩].length : ℚ)) +
      (([(⟨some "Positive"⟩ : WArticle), ⟨none⟩].map getSentiment).count
        "Neutral" : ℚ) / (([(⟨some "Positive"⟩ : WArticle), ⟨none⟩].length : ℚ)) < 1 :=
  (weekly_sentiment_denominator.2 [⟨some "Positive"⟩, ⟨none⟩]
    (by decide)).2 ⟨⟨none⟩, by simp, rfl⟩

end NewsDashboard
